import Mathlib

/-!
Verification of the NDA/ANDA matching pipeline.

This file gives a shallow embedding of the record-linkage core of the
repository (normalization utilities, the candidate matcher's predicates, the
temporal filter, the company-evidence validator, the monopoly-time
calculator and the match-list export/parse pair) and proves or refutes the
specification's claims about it.

Modeling conventions:
* Python strings are lists of characters (`Str`); `str.upper()` is the
  ASCII case map, `str.strip()` strips the whitespace characters recognised
  by `Char.isWhitespace`.
* Dates (`pandas.Timestamp`) are day numbers (`Nat`) produced by a
  proleptic-Gregorian day count, so subtraction of day numbers is exactly
  the calendar-day difference `pandas` computes; missing dates (`NaT`,
  `None`) are `Option.none`.
* Python floats are modeled as rationals (`ℚ`); every similarity score in
  the validator is a ratio of two small integers, for which float and exact
  rational comparison against the 0.9/0.2 thresholds agree.
-/

/-- Python strings, modeled as lists of characters. -/
abbrev Str := List Char

/-- ASCII uppercase map: `str.upper()` for one character (lowercase ASCII
letters are shifted down by 32, every other character is unchanged). -/
def upChar (c : Char) : Char :=
  if h : 97 ≤ c.toNat ∧ c.toNat ≤ 122 then
    Char.ofNatAux (c.toNat - 32) (Or.inl (by omega))
  else c

/-- Python `str.upper()`. -/
def pyUpper (s : Str) : Str := s.map upChar

/-- `text.replace(",", "")` from `norm_strength`. -/
def rmComma (s : Str) : Str := s.filter (fun c => !(c == ','))

/-- `re.sub(r"[\[\]'\"]", "", text)` from `norm_strength`. -/
def rmBracket (s : Str) : Str :=
  s.filter (fun c => !(c == '[' || c == ']' || c == '\'' || c == '"'))

/-- `re.sub(r"\s+", "", text)`: removing every whitespace run removes every
whitespace character. -/
def rmWs (s : Str) : Str := s.filter (fun c => !c.isWhitespace)

/-- `re.sub(r"MG\.?", "MG", text)`: left-to-right non-overlapping scan; an
occurrence of `MG` optionally followed by one `.` is rewritten to `MG`
(i.e. the dot is dropped), everything else is copied. -/
def mgSub : Str → Str
  | 'M' :: 'G' :: '.' :: rest => 'M' :: 'G' :: mgSub rest
  | 'M' :: 'G' :: rest => 'M' :: 'G' :: mgSub rest
  | c :: rest => c :: mgSub rest
  | [] => []

/-- `norm_strength` from `match.py` (also `ANDA.get_normalized_strength` and
`NDAANDAMatcher._normalize_strength`): uppercase, strip commas, strip
bracket/quote characters, strip whitespace, normalize `MG.` to `MG`.  The
source's trailing `text.replace("MCG", "MCG")` and `text.replace("ML", "ML")`
replace a string by itself and are identities, hence omitted.  The `pd.isna`
guard is handled by callers (`Option` at the call sites that can be null). -/
def norm_strength (s : Str) : Str :=
  mgSub (rmWs (rmBracket (rmComma (pyUpper s))))

/-- Does the string start with `MG.`? -/
def startsMGDot : Str → Bool
  | 'M' :: 'G' :: '.' :: _ => true
  | _ => false

/-- Does the string contain `MG.` as a contiguous substring?  This is the
only pattern on which the `MG\.?` rewrite of `norm_strength` is not the
identity on an already-normalized string. -/
def hasMGDot : Str → Bool
  | [] => false
  | c :: rest => startsMGDot (c :: rest) || hasMGDot rest

/-- Boolean test: is `p` a prefix of `s`?  Models anchored matching in
Python's `re.match` and `str.startswith`. -/
def isPrefixB : Str → Str → Bool
  | [], _ => true
  | _ :: _, [] => false
  | a :: as, b :: bs => a == b && isPrefixB as bs

/-- Boolean test: is `p` a contiguous substring of `s`?  Models Python's
`pattern in text` on strings. -/
def isInfixB (p : Str) : Str → Bool
  | [] => p.isEmpty
  | c :: rest => isPrefixB p (c :: rest) || isInfixB p rest

/-- One step of whitespace-splitting, used by `splitWords` (right fold). -/
def splitWordsAcc (c : Char) (acc : List Str) : List Str :=
  if c.isWhitespace then [] :: acc
  else
    match acc with
    | [] => [[c]]
    | w :: ws => (c :: w) :: ws

/-- Python `str.split()` with no argument: split on whitespace runs and
drop empty pieces. -/
def splitWords (s : Str) : List Str :=
  (s.foldr splitWordsAcc []).filter (fun w => !w.isEmpty)

/-- Invariant of the `splitWords` fold: the head piece (still growing on
the left) is a prefix of the processed string, the finished pieces are
contiguous substrings of it. -/
def SplitInv (s : Str) : List Str → Prop
  | [] => True
  | w :: ws => w <+: s ∧ ∀ v ∈ ws, v <:+: s

/-- Lexicographic strict order on strings by code point: Python `<` on
`str`, as used by `sorted`. -/
def lexLt : Str → Str → Bool
  | [], [] => false
  | [], _ :: _ => true
  | _ :: _, [] => false
  | a :: as, b :: bs => if a < b then true else if b < a then false else lexLt as bs

/-- Insert into a sorted list (auxiliary to `sortBy`). -/
def insertBy {α : Type} (lt : α → α → Bool) (x : α) : List α → List α
  | [] => [x]
  | y :: ys => if lt x y then x :: y :: ys else y :: insertBy lt x ys

/-- Comparison sort, modeling Python's `sorted` extensionally (after the
duplicate-removal steps applied here, stability is irrelevant because equal
elements are identical strings). -/
def sortBy {α : Type} (lt : α → α → Bool) : List α → List α
  | [] => []
  | x :: xs => insertBy lt x (sortBy lt xs)

/-- Auxiliary to `pdedup`: the `seen` set of the Python loop. -/
def pdedupAux (seen : List Str) : List Str → List Str
  | [] => []
  | x :: xs => if x ∈ seen then pdedupAux seen xs else x :: pdedupAux (x :: seen) xs

/-- Order-preserving duplicate removal (first occurrence wins), as in
`parse_matches_file`'s `seen`-set loop. -/
def pdedup (l : List Str) : List Str := pdedupAux [] l

/-- Python `str.lstrip()`. -/
def lstrip (s : Str) : Str := s.dropWhile Char.isWhitespace

/-- Python `str.rstrip()`. -/
def rstrip (s : Str) : Str := (s.reverse.dropWhile Char.isWhitespace).reverse

/-- Python `str.strip()`. -/
def pstrip (s : Str) : Str := lstrip (rstrip s)

/-- Python `str.split(sep)` for a single-character separator: splits at
every occurrence, keeping empty pieces. -/
def splitOnChar (sep : Char) : Str → List Str
  | [] => [[]]
  | c :: s =>
    if c == sep then [] :: splitOnChar sep s
    else
      match splitOnChar sep s with
      | [] => [[c]]
      | w :: ws => (c :: w) :: ws

/-- Splitting on the strength-list separator characters `|`, `;`, `,`
(the segments between separator characters, empties kept; used by
`tokenize_strength_list`). -/
def splitOnSeps : Str → List Str
  | [] => [[]]
  | c :: s =>
    if c == '|' || c == ';' || c == ',' then [] :: splitOnSeps s
    else
      match splitOnSeps s with
      | [] => [[c]]
      | w :: ws => (c :: w) :: ws

/-- Python `str.zfill(w)`: left-pad with `0` to width `w`, keeping a
leading sign in place. -/
def zfill (w : Nat) (s : Str) : Str :=
  match s with
  | [] => List.replicate w '0'
  | c :: rest =>
    if c == '+' || c == '-' then c :: (List.replicate (w - (rest.length + 1)) '0' ++ rest)
    else List.replicate (w - (rest.length + 1)) '0' ++ (c :: rest)

/-- Base-10 rendering of a natural number (fuel-driven auxiliary; the
fuel `n + 1` always suffices since `n / 10 < n` for `n ≥ 10`). -/
def natToStrGo : Nat → Nat → Str → Str
  | 0, _, acc => acc
  | fuel + 1, n, acc =>
    if n < 10 then Char.ofNat (48 + n) :: acc
    else natToStrGo fuel (n / 10) (Char.ofNat (48 + n % 10) :: acc)

/-- Base-10 rendering of a natural number, as Python's `str`/f-strings. -/
def natToStr (n : Nat) : Str := natToStrGo (n + 1) n []

/-- Python `", ".join(...)`. -/
def joinCommaSpace : List Str → Str
  | [] => []
  | [x] => x
  | x :: y :: rest => x ++ ", ".data ++ joinCommaSpace (y :: rest)

/-- Is the string a zero-padded 6-digit application number (a fixed point
of `zfill 6` on an all-digit string)? -/
def valid6 (s : Str) : Bool := s.length == 6 && s.all Char.isDigit

/-- `tokenize_strength_list` from `match.py`: strip bracket/quote
characters, split on the `|`/`;`/`,` separators, drop whitespace-only
pieces and normalize each remaining token.  The source splits with
`re.split(r"\s*(\||;|,)+\s*", ...)`, whose captured one-character
separator parts and empty parts are filtered out by `if part and part not
in {"|", ";", ","}` and `if token.strip()`; the whitespace the pattern
consumes around separators is erased by `norm_strength` anyway, so
splitting on the separator characters alone is extensionally identical. -/
def tokenize_strength_list (raw : Str) : List Str :=
  ((splitOnSeps (rmBracket raw)).filter (fun t => !(pstrip t).isEmpty)).map norm_strength

/-- `strength_in_tokens` from `match.py`: a missing normalized strength
never matches; otherwise test list membership. -/
def strength_in_tokens (tokens : List Str) (normalizedStrength : Option Str) : Bool :=
  match normalizedStrength with
  | none => false
  | some s => tokens.contains s

/-- `substr_contains` from `match.py`: null-safe substring test. -/
def substr_contains (text pattern : Option Str) : Bool :=
  match text, pattern with
  | some t, some p => isInfixB p t
  | _, _ => false

/-- The `strength_match` column of `_process_strength_matching` in
`match.py`: token-list hit OR substring hit (`x` is the brand table's
strength-list field, `y` the Orange-Book strength; `none` models a null
cell). -/
def strength_match_diag (x y : Option Str) : Bool :=
  strength_in_tokens
      (match x with
       | none => []
       | some s => tokenize_strength_list s)
      (y.map norm_strength)
    || substr_contains (x.map norm_strength) (y.map norm_strength)

/-- The `STR_OK` criterion of `_apply_matching_criteria` in `match.py`:
pandas `==` on the two normalized strength columns, where a null
(`np.nan`, from a missing raw strength) compares unequal to everything
including itself. -/
def str_ok (ndaStrN andaStrN : Option Str) : Bool :=
  match ndaStrN, andaStrN with
  | some a, some b => a == b
  | _, _ => false

/-- `ANDA.get_normalized_strength` from `match_class.py`: empty for an
empty raw strength, otherwise `norm_strength`. -/
def anda_normalized_strength (raw : Str) : Str :=
  if raw.isEmpty then [] else norm_strength raw

/-- `NDAANDAMatcher._check_strength_match` from `match_new.py`: the
generic's normalized strength must be exactly equal to the normalized
strength of one of the brand's Orange-Book product rows (empty strengths
are skipped; no rows or an empty generic strength give `false`). -/
def check_strength_match (andaRaw : Str) (obStrengths : List Str) : Bool :=
  let andaN := anda_normalized_strength andaRaw
  if andaN.isEmpty then false
  else obStrengths.any (fun s => if s.isEmpty then false else norm_strength s == andaN)

/-- Proleptic-Gregorian day number (days since 0000-03-01; only
differences are used).  This mirrors the exact calendar-day arithmetic of
`pandas.Timestamp` subtraction. -/
def toDayNumber (y m d : Nat) : Nat :=
  let yAdj := if m ≤ 2 then y - 1 else y
  let era := yAdj / 400
  let yoe := yAdj % 400
  let mp := (m + 9) % 12
  let doy := (153 * mp + 2) / 5 + d - 1
  let doe := yoe * 365 + yoe / 4 - yoe / 100 + doy
  era * 146097 + doe

/-- An ANDA as the `Match` class sees it: its application number and its
(nullable) approval date as a day number. -/
structure AndaRec where
  num : Str
  approvalDate : Option Nat
deriving DecidableEq, Repr

/-- `Match.eliminate_impossible_matches` from `match_class.py`: with no
NDA approval date every ANDA is kept; otherwise an ANDA is kept iff its
approval date is missing or is `>=` the NDA approval date. -/
def eliminate_impossible_matches (ndaDate : Option Nat) (andas : List AndaRec) : List AndaRec :=
  match ndaDate with
  | none => andas
  | some nd =>
    andas.filter fun a =>
      match a.approvalDate with
      | none => true
      | some d => nd ≤ d

/-- `Match.add_anda` from `match_class.py`: the ANDA is appended only if
`eliminate_impossible_matches` keeps it. -/
def add_anda (ndaDate : Option Nat) (andas : List AndaRec) (a : AndaRec) : List AndaRec :=
  if eliminate_impossible_matches ndaDate [a] = [] then andas else andas ++ [a]

/-- `Match.remove_anda` from `match_class.py`. -/
def remove_anda (num : Str) (andas : List AndaRec) : List AndaRec :=
  andas.filter fun a => !(a.num == num)

/-- The ANDA lists reachable through the `Match` class interface for a
fixed NDA approval date: construction (`__init__` applies
`eliminate_impossible_matches` to the initial list), `add_anda`, and
`remove_anda`. -/
inductive MatchReachable (ndaDate : Option Nat) : List AndaRec → Prop
  | init (l : List AndaRec) : MatchReachable ndaDate (eliminate_impossible_matches ndaDate l)
  | add {l : List AndaRec} (a : AndaRec) :
      MatchReachable ndaDate l → MatchReachable ndaDate (add_anda ndaDate l a)
  | remove {l : List AndaRec} (num : Str) :
      MatchReachable ndaDate l → MatchReachable ndaDate (remove_anda num l)

/-- The working-set invariant claimed for `Match`: the generic's approval
date is null, or the brand's approval date is null, or the generic was
approved on or after the brand. -/
def dateOk (ndaDate : Option Nat) (a : AndaRec) : Bool :=
  match a.approvalDate, ndaDate with
  | none, _ => true
  | _, none => true
  | some d, some nd => nd ≤ d

/-- The earliest-approval fold of `Match.calculate_monopoly_time`:
the running minimum over the present approval dates, in list order. -/
def earliestDate (l : List (Option Nat)) : Option Nat :=
  l.foldl
    (fun acc d =>
      match d with
      | none => acc
      | some x =>
        match acc with
        | none => some x
        | some m => if x < m then some x else acc)
    none

/-- `Match.calculate_monopoly_time` from `match_class.py`: `None` without
ANDAs, without an NDA approval date, or without any dated ANDA; otherwise
`(earliest ANDA date − NDA date).days / 365.25` in years. -/
def calculate_monopoly_time (ndaDate : Option Nat) (andas : List AndaRec) : Option ℚ :=
  if andas = [] then none
  else
    match ndaDate with
    | none => none
    | some nd =>
      match earliestDate (andas.map (fun a => a.approvalDate)) with
      | none => none
      | some e => some (((((e : ℤ) - (nd : ℤ)) : ℤ) : ℚ) / (365.25 : ℚ))

/-- `shorter_than_granted` from `match.py` (lines 108–113) and the
identical row function inside
`calculate_nda_monopoly_times_with_validation` in `postprocess.py`:
`NaN` when either value is missing, else `bool(actual < granted)`. -/
def shorter_than_granted (actual granted : Option ℚ) : Option Bool :=
  match actual, granted with
  | some a, some g => some (decide (a < g))
  | _, _ => none

/-- The `shorter_than_granted` field of `Match.get_monopoly_summary` in
`match_class.py`: `monopoly_years < granted_years if (monopoly_years and
granted_years) else None`.  Python truthiness makes `None` *and* `0.0`
falsy, so the comparison is only produced when the monopoly years are
present and nonzero and the granted years are nonzero
(`get_mmt_years` returns `0.0` when the field is missing). -/
def monopoly_summary_shorter_flag (monopolyYears : Option ℚ) (grantedYears : ℚ) : Option Bool :=
  match monopolyYears with
  | none => none
  | some y => if y = 0 ∨ grantedYears = 0 then none else some (decide (y < grantedYears))

/-- The temporal filter of `calculate_nda_monopoly_times_with_validation`
in `postprocess.py` on (ANDA date, NDA date) row pairs:
`dropna(subset=["ANDA_Approval_Date_Date"])` followed by the pandas
comparison `ANDA_Approval_Date_Date > NDA_Approval_Date_Date`, which is
`False` whenever the (left-joined, possibly `NaT`) NDA date is missing. -/
def monopoly_valid_filter (rows : List (Option Nat × Option Nat)) :
    List (Option Nat × Option Nat) :=
  (rows.filter fun r => r.1.isSome).filter fun r =>
    match r.1, r.2 with
    | some a, some n => decide (n < a)
    | _, _ => false

/-- `calculate_text_similarity` from `postprocess.py`: `0.0` on an empty
(falsy) company name or reference text; otherwise, uppercase both, keep
the company-name words longer than 3 characters, and return the fraction
of them occurring as substrings of the text, falling back to a binary
exact-substring test when no word qualifies. -/
def calculate_text_similarity (company text : Str) : ℚ :=
  if company = [] ∨ text = [] then 0
  else
    let cU := pyUpper company
    let tU := pyUpper text
    let ws := (splitWords cU).filter fun w => 3 < w.length
    if ws = [] then (if isInfixB cU tU then 1 else 0)
    else ((ws.countP fun w => isInfixB w tU : Nat) : ℚ) / ((ws.length : Nat) : ℚ)

/-- Modelled from the spec (claim C7's formula, §4.5 step 2b): the score
is the number of company-name words longer than 3 characters occurring
(case-insensitively) in the document text divided by the number of such
words, and with zero such words it is `1.0` exactly when the whole name
occurs case-insensitively in the text. -/
def spec_text_similarity (company text : Str) : ℚ :=
  let cU := pyUpper company
  let tU := pyUpper text
  let ws := (splitWords cU).filter fun w => 3 < w.length
  if ws = [] then (if isInfixB cU tU then 1 else 0)
  else ((ws.countP fun w => isInfixB w tU : Nat) : ℚ) / ((ws.length : Nat) : ℚ)

/-- Validation status of one candidate match. -/
inductive VStatus
  | validated
  | rejected
  | unknown
deriving DecidableEq, Repr

/-- The company loop of `validate_company_matches` in `postprocess.py`,
over the accumulator `(company_found, matched_company, best_similarity)`:
falsy company names are skipped; an exact case-insensitive substring hit
sets the accumulator to `(True, company, 1.0)` and breaks; otherwise a
similarity at least the threshold and above the current best updates the
accumulator. -/
def company_scan (threshold : ℚ) (text : Str) :
    List Str → Bool × Option Str × ℚ → Bool × Option Str × ℚ
  | [], acc => acc
  | c :: rest, (found, matched, best) =>
    if c = [] then company_scan threshold text rest (found, matched, best)
    else if isInfixB (pyUpper c) (pyUpper text) then (true, some c, 1)
    else
      let sim := calculate_text_similarity c text
      if threshold ≤ sim ∧ best < sim then company_scan threshold text rest (true, some c, sim)
      else company_scan threshold text rest (found, matched, best)

/-- The `max_similarity` recomputation of the rejection branch of
`validate_company_matches`: the maximum `calculate_text_similarity` over
the (truthy) company names, starting from `0.0`. -/
def max_similarity (companies : List Str) (text : Str) : ℚ :=
  companies.foldl (fun m c => if c = [] then m else max m (calculate_text_similarity c text)) 0

/-- Per-row classification of `validate_company_matches` in
`postprocess.py` (with the default `similarity_threshold=0.9` used at
every call site): the returned pair is the validation status and whether
the row is appended to the retained (`validated_matches`) list — `false`
means it goes to `rejected_matches`. -/
def validate_row (companies : List Str) (text : Option Str) : VStatus × Bool :=
  match text with
  | none => (VStatus.unknown, true)
  | some t =>
    if t = [] ∨ companies = [] then (VStatus.unknown, true)
    else if (company_scan (9 / 10) t companies (false, none, 0)).1 then
      (VStatus.validated, true)
    else if max_similarity companies t < 1 / 5 then (VStatus.rejected, false)
    else (VStatus.unknown, true)

/-- The `"=" * 80` separator line of `export_nda_anda_matches`. -/
def eq80line : Str := List.replicate 80 '='

/-- The `"-" * 80` separator line of `export_nda_anda_matches`. -/
def dash80line : Str := List.replicate 80 '-'

/-- The title line of `export_nda_anda_matches`. -/
def titleLine : Str := "FINAL NDA-ANDA MATCHES (After Company Validation)".data

/-- One data line of `export_nda_anda_matches`:
`f"NDA{nda_num}: {', '.join(sorted(anda_list))}"`. -/
def render_match_line (nda : Str) (andas : List Str) : Str :=
  "NDA".data ++ nda ++ ": ".data ++ joinCommaSpace (sortBy lexLt andas)

/-- `export_nda_anda_matches` from `dosage.py`, as the list of lines it
writes: the header block, the `Generated:` timestamp line, either the
no-matches notice or the totals block followed by one data line per NDA
in sorted NDA order.  The input is the `nda_anda_map` the function builds
(one key per NDA, ANDA numbers appended in row order, **not**
deduplicated), represented as an insertion-ordered association list with
distinct keys. -/
def export_nda_anda_matches (timestamp : Str) (m : List (Str × List Str)) : List Str :=
  [eq80line, titleLine, eq80line, "Generated: ".data ++ timestamp, []] ++
    (if m = [] then ["No validated matches found.".data]
     else
       ["Total NDAs with matches: ".data ++ natToStr m.length,
        "Total validated ANDA matches: ".data ++ natToStr (m.map fun p => p.2.length).sum,
        [], dash80line, []] ++
         (sortBy (fun p q => lexLt p.1 q.1) m).map fun p => render_match_line p.1 p.2)

/-- The regex step of `parse_matches_file`:
`re.match(r"NDA(\d+):\s*(.+)", line)` — a literal `NDA` prefix, a
nonempty maximal digit run, a `:`, optional whitespace, then at least one
remaining character; returns (digit run, remainder). -/
def parse_data_line (line : Str) : Option (Str × Str) :=
  match line with
  | 'N' :: 'D' :: 'A' :: rest =>
    let digits := rest.takeWhile Char.isDigit
    if digits.isEmpty then none
    else
      match rest.dropWhile Char.isDigit with
      | ':' :: tail =>
        let content := tail.dropWhile Char.isWhitespace
        if content.isEmpty then none else some (digits, content)
      | _ => none
  | _ => none

/-- Python `dict` assignment `d[k] = v` on an insertion-ordered
association list: an existing key keeps its position and gets the new
value, a new key is appended. -/
def dictInsert (k : Str) (v : List Str) : List (Str × List Str) → List (Str × List Str)
  | [] => [(k, v)]
  | p :: rest => if p.1 = k then (k, v) :: rest else p :: dictInsert k v rest

/-- The line-skipping test of `parse_matches_file`: empty after
stripping, or starting with `=`, `-`, `Total` or `Generated`. -/
def parse_skip_cond (line : Str) : Bool :=
  line.isEmpty || isPrefixB "=".data line || isPrefixB "-".data line ||
    isPrefixB "Total".data line || isPrefixB "Generated".data line

/-- One line of `parse_matches_file` from `monopoly_time.py`: strip the
line; skip it if empty or starting with `=`, `-`, `Total` or `Generated`;
otherwise apply the regex, zero-pad the NDA number to 6 digits, split the
remainder on commas, strip each piece, drop empty pieces, zero-pad each
ANDA number to 6 digits, remove duplicates preserving order, and store
the result under the NDA key. -/
def parse_step (acc : List (Str × List Str)) (rawLine : Str) : List (Str × List Str) :=
  if parse_skip_cond (pstrip rawLine) then acc
  else
    match parse_data_line (pstrip rawLine) with
    | none => acc
    | some (ndaNum, rest) =>
      let andas :=
        (((splitOnChar ',' rest).map pstrip).filter fun t => !t.isEmpty).map (zfill 6)
      dictInsert (zfill 6 ndaNum) (pdedup andas) acc

/-- `parse_matches_file` from `monopoly_time.py`, over the list of lines
of the file. -/
def parse_matches_file (lines : List Str) : List (Str × List Str) :=
  lines.foldl parse_step []

/-! ## Lemmas about the strength normalization -/

theorem upChar_idem (c : Char) : upChar (upChar c) = upChar c := by
  unfold upChar
  split
  · rename_i h
    have ht : (Char.ofNatAux (c.toNat - 32) (Or.inl (by omega))).toNat = c.toNat - 32 := by
      simp [Char.ofNatAux, Char.toNat, UInt32.toNat]
    rw [dif_neg]
    rw [ht]
    omega
  · rfl

theorem mem_mgSub {c : Char} : ∀ {s : Str}, c ∈ mgSub s → c ∈ s := by
  intro s
  induction s using mgSub.induct <;> simp [mgSub] <;> intro h <;> try tauto

theorem mgSub_eq_self : ∀ {s : Str}, hasMGDot s = false → mgSub s = s := by
  intro s
  induction s using mgSub.induct <;> intro h <;>
    simp [mgSub, hasMGDot, startsMGDot] at * <;> simp_all

theorem norm_strength_mem {c : Char} {s : Str} (hc : c ∈ norm_strength s) :
    upChar c = c ∧ (c == ',') = false ∧
      (c == '[' || c == ']' || c == '\'' || c == '"') = false ∧
      c.isWhitespace = false := by
  unfold norm_strength at hc
  have h1 := mem_mgSub hc
  rw [rmWs, List.mem_filter] at h1
  obtain ⟨h2, hw⟩ := h1
  rw [rmBracket, List.mem_filter] at h2
  obtain ⟨h3, hb⟩ := h2
  rw [rmComma, List.mem_filter] at h3
  obtain ⟨h4, hcm⟩ := h3
  rw [pyUpper, List.mem_map] at h4
  obtain ⟨d, _, rfl⟩ := h4
  exact ⟨upChar_idem d, by simpa using hcm, by simpa using hb, by simpa using hw⟩

/-- Claim C10 (counterexample): `norm_strength` is *not* idempotent.  On
the input `MG..` one application yields `MG.` (the rewrite consumes
`MG.` and leaves the second dot), while a second application yields
`MG`. -/
theorem norm_strength_claim_cex :
    norm_strength (norm_strength ('M' :: 'G' :: '.' :: '.' :: [])) ≠
      norm_strength ('M' :: 'G' :: '.' :: '.' :: []) := by
  decide

/-- Claim C10 (amended): `norm_strength` is idempotent on every input
whose normalized form does not contain `MG.` as a substring — the `MG\.?`
rewrite is the only non-idempotent step, and only the pattern `MG.`
surviving in the output (from inputs with `MG` followed by two or more
dots) breaks it. -/
theorem norm_strength_idem_of_no_mgdot {s : Str}
    (h : hasMGDot (norm_strength s) = false) :
    norm_strength (norm_strength s) = norm_strength s := by
  have hup : pyUpper (norm_strength s) = norm_strength s := by
    rw [pyUpper]
    rw [List.map_congr_left (fun c hc => (norm_strength_mem hc).1)]
    exact List.map_id _
  conv_lhs => rw [norm_strength, hup]
  rw [rmComma, List.filter_eq_self.mpr (fun c hc => by
    rw [(norm_strength_mem hc).2.1]; rfl)]
  rw [rmBracket, List.filter_eq_self.mpr (fun c hc => by
    rw [(norm_strength_mem hc).2.2.1]; rfl)]
  rw [rmWs, List.filter_eq_self.mpr (fun c hc => by
    rw [(norm_strength_mem hc).2.2.2]; rfl)]
  exact mgSub_eq_self h

/-- Witness for the amended claim C10 at the concrete input `10MG`. -/
theorem norm_strength_idem_of_no_mgdot_witness :
    hasMGDot (norm_strength ('1' :: '0' :: 'M' :: 'G' :: [])) = false ∧
      norm_strength (norm_strength ('1' :: '0' :: 'M' :: 'G' :: [])) =
        norm_strength ('1' :: '0' :: 'M' :: 'G' :: []) :=
  ⟨by decide, norm_strength_idem_of_no_mgdot (by decide)⟩

/-! ## The Match working set (claims C5 and C1) -/

theorem eliminate_eq_filter (ndaDate : Option Nat) (andas : List AndaRec) :
    eliminate_impossible_matches ndaDate andas = andas.filter (dateOk ndaDate) := by
  cases ndaDate with
  | none =>
    simp only [eliminate_impossible_matches]
    rw [eq_comm, List.filter_eq_self]
    intro a _
    cases h : a.approvalDate <;> simp [dateOk, h]
  | some nd =>
    simp only [eliminate_impossible_matches]
    apply List.filter_congr
    intro a _
    cases h : a.approvalDate <;> simp [dateOk, h]

/-- Claim C5: every ANDA in a `Match`'s working set — after construction
and after any number of `add_anda`/`remove_anda` operations — has a null
approval date, or the NDA approval date is null, or was approved on or
after the NDA. -/
theorem match_working_set_invariant {ndaDate : Option Nat} {l : List AndaRec}
    (h : MatchReachable ndaDate l) : ∀ a ∈ l, dateOk ndaDate a = true := by
  induction h with
  | init l0 =>
    intro a ha
    rw [eliminate_eq_filter] at ha
    exact (List.mem_filter.mp ha).2
  | add b _ ih =>
    intro a ha
    rw [add_anda] at ha
    split at ha
    · exact ih a ha
    · rename_i hne
      rcases List.mem_append.mp ha with h1 | h1
      · exact ih a h1
      · have : b ∈ eliminate_impossible_matches ndaDate [b] := by
          rw [eliminate_eq_filter] at hne ⊢
          rcases hd : dateOk ndaDate b with _ | _
          · exact absurd (by simp [hd]) hne
          · simp [hd]
        rw [eliminate_eq_filter] at this
        have hb := (List.mem_filter.mp this).2
        simpa using List.mem_singleton.mp h1 ▸ hb
  | remove num _ ih =>
    intro a ha
    exact ih a (List.mem_filter.mp ha).1

/-- Witness for claim C5: a concrete reachable state (construction from a
one-element candidate list) on which the invariant is evaluated. -/
theorem match_working_set_invariant_witness :
    dateOk (some 3) ⟨['0'], some 5⟩ = true :=
  match_working_set_invariant (MatchReachable.init [⟨['0'], some 5⟩])
    ⟨['0'], some 5⟩ (by decide)

/-- Claim C1 (counterexample): the claim fails on both cited filters.  A
same-day pair (generic approved the very day of the brand approval) is
*kept* by `Match.eliminate_impossible_matches` — the source tests
`anda_approval >= nda_approval`, not the claimed strict `>` — and a pair
whose generic approval date is missing is *dropped* by the
`calculate_nda_monopoly_times_with_validation` filter, which begins with
`dropna` on the ANDA date, contradicting the claimed keep-on-missing
behavior. -/
theorem temporal_filter_claim_cex :
    eliminate_impossible_matches (some 5) [⟨['1'], some 5⟩] = [⟨['1'], some 5⟩] ∧
      monopoly_valid_filter [(none, some 3)] = [] := by
  decide

/-- Claim C1 (amended): `Match.eliminate_impossible_matches` keeps a
dated pair iff the generic's date is `>=` the brand's (same-day approval
qualifies) and keeps every pair in which either date is missing, while
the monopoly-time filter in `postprocess.py` keeps a pair iff both dates
are present and the generic's is strictly greater (pairs with a missing
date are dropped there). -/
theorem temporal_filter_characterization :
    (∀ (ndaDate : Option Nat) (andas : List AndaRec),
        eliminate_impossible_matches ndaDate andas = andas.filter (dateOk ndaDate)) ∧
      (∀ rows : List (Option Nat × Option Nat),
        monopoly_valid_filter rows =
          rows.filter fun r =>
            match r.1, r.2 with
            | some a, some n => decide (n < a)
            | _, _ => false) := by
  refine ⟨eliminate_eq_filter, fun rows => ?_⟩
  rw [monopoly_valid_filter, List.filter_filter]
  apply List.filter_congr
  intro r _
  rcases r with ⟨_ | a, _ | n⟩ <;> simp

/-! ## Monopoly-time arithmetic (claims C8 and C9) -/

/-- Claim C8: on the spec's test vector — brand approval 2009-01-14,
earliest generic approval 2016-01-27 — the calendar-day difference is
2569 days, `Match.calculate_monopoly_time` returns 2569/365.25 years
(the fixed average-year divisor), and that value is within 0.01 of
7.03. -/
theorem monopoly_elapsed_time_arithmetic :
    ((toDayNumber 2016 1 27 : ℤ) - (toDayNumber 2009 1 14 : ℤ) = 2569) ∧
      calculate_monopoly_time (some (toDayNumber 2009 1 14))
          [⟨['0'], some (toDayNumber 2016 1 27)⟩] =
        some ((2569 : ℚ) / (365.25 : ℚ)) ∧
      |(2569 : ℚ) / (365.25 : ℚ) - 703 / 100| < 1 / 100 := by
  have h09 : toDayNumber 2009 1 14 = 733726 := by decide
  have h16 : toDayNumber 2016 1 27 = 736295 := by decide
  refine ⟨by rw [h09, h16]; decide, ?_, ?_⟩
  · rw [h09, h16]
    simp only [calculate_monopoly_time, earliestDate, List.map, List.foldl]
    norm_num
  · rw [abs_lt]
    constructor <;> norm_num

/-- Claim C9 (counterexample): in `Match.get_monopoly_summary` the
shorter-than-granted flag is `None` — not a boolean — when both values
are present but the actual monopoly years equal `0.0` (Python truthiness
`monopoly_years and granted_years` treats `0.0` as missing), so the flag
is not `bool(actual < granted)` whenever both values are present. -/
theorem shorter_than_granted_claim_cex :
    monopoly_summary_shorter_flag (some 0) 5 = none ∧
      monopoly_summary_shorter_flag (some 0) 5 ≠ some (decide ((0 : ℚ) < 5)) := by
  constructor
  · rfl
  · rw [show monopoly_summary_shorter_flag (some 0) 5 = none from rfl]
    simp

/-- Claim C9 (amended): in the DataFrame pipelines (`shorter_than_granted`
in `match.py` and the identical row function in `postprocess.py`) the
flag is `bool(actual < granted)` when both values are present and null
when either is missing; the class-based summary
(`Match.get_monopoly_summary`) instead produces the boolean only when
the elapsed-years value is present *and nonzero* and the granted-years
value is nonzero, returning `None` otherwise. -/
theorem shorter_than_granted_characterization :
    (∀ a g : ℚ, shorter_than_granted (some a) (some g) = some (decide (a < g))) ∧
      (∀ x : Option ℚ, shorter_than_granted x none = none ∧
        shorter_than_granted none x = none) ∧
      (∀ y g : ℚ, y ≠ 0 → g ≠ 0 →
        monopoly_summary_shorter_flag (some y) g = some (decide (y < g))) ∧
      (∀ y g : ℚ, y = 0 ∨ g = 0 →
        monopoly_summary_shorter_flag (some y) g = none) ∧
      (∀ g : ℚ, monopoly_summary_shorter_flag none g = none) := by
  refine ⟨fun a g => rfl, fun x => ⟨?_, rfl⟩, fun y g hy hg => ?_, fun y g h => ?_, fun g => rfl⟩
  · cases x <;> rfl
  · rw [monopoly_summary_shorter_flag, if_neg (by tauto)]
  · rw [monopoly_summary_shorter_flag, if_pos h]

/-- Witness for the amended claim C9 at concrete values. -/
theorem shorter_than_granted_characterization_witness :
    monopoly_summary_shorter_flag (some 3) 5 = some (decide ((3 : ℚ) < 5)) ∧
      monopoly_summary_shorter_flag (some 0) 7 = none :=
  ⟨shorter_than_granted_characterization.2.2.1 3 5 (by norm_num) (by norm_num),
   shorter_than_granted_characterization.2.2.2.1 0 7 (Or.inl rfl)⟩

/-! ## The candidate matcher's strength criterion (claim C2) -/

/-- Claim C2 (counterexample): for the brand strength list `10MG, 20MG`
(normalizing to `10MG20MG`) and the generic strength `20MG`, the
generic's normalized strength is a verbatim substring of the brand's and
an element of the brand's tokenized strength list, yet both cited
candidate-filter predicates reject the pair: `STR_OK` in
`_apply_matching_criteria` is pandas `==` on the normalized columns, and
`_check_strength_match` in `match_new.py` tests exact equality against
each Orange-Book strength. -/
theorem strength_criterion_claim_cex :
    isInfixB (norm_strength "20MG".data) (norm_strength "10MG, 20MG".data) = true ∧
      strength_in_tokens (tokenize_strength_list "10MG, 20MG".data)
        (some (norm_strength "20MG".data)) = true ∧
      str_ok (some (norm_strength "10MG, 20MG".data))
        (some (norm_strength "20MG".data)) = false ∧
      check_strength_match "20MG".data ["10MG, 20MG".data] = false := by
  decide
/-- Claim C2 (amended): the candidate filters accept on exact equality
only — `STR_OK` holds iff the two normalized strengths are present and
equal, and `_check_strength_match` holds iff the generic's normalized
strength is nonempty and exactly equals the normalization of one of the
brand's (nonempty) Orange-Book strengths.  The equality-OR-substring-OR-
token-list disjunction of the claim exists only in the brand-table
strength diagnostic (`strength_match_diag`), not in the matcher. -/
theorem strength_criterion_equality_only :
    (∀ a b : Str, str_ok (some a) (some b) = true ↔ a = b) ∧
      (∀ x : Option Str, str_ok x none = false ∧ str_ok none x = false) ∧
      (∀ (andaRaw : Str) (obStrengths : List Str),
        check_strength_match andaRaw obStrengths = true ↔
          anda_normalized_strength andaRaw ≠ [] ∧
            ∃ s ∈ obStrengths, s ≠ [] ∧
              norm_strength s = anda_normalized_strength andaRaw) := by
  refine ⟨fun a b => by simp [str_ok], fun x => ⟨by cases x <;> rfl, rfl⟩,
    fun andaRaw obs => ?_⟩
  rw [check_strength_match]
  by_cases h : (anda_normalized_strength andaRaw).isEmpty
  · rw [List.isEmpty_iff] at h
    simp [h]
  · rw [List.isEmpty_iff] at h
    simp only [List.isEmpty_iff, if_neg h, List.any_eq_true]
    constructor
    · rintro ⟨s, hs, heq⟩
      by_cases he : s = []
      · rw [if_pos he] at heq
        exact absurd heq (by simp)
      · rw [if_neg he] at heq
        exact ⟨h, s, hs, he, by simpa using heq⟩
    · rintro ⟨-, s, hs, hne, heq⟩
      refine ⟨s, hs, ?_⟩
      rw [if_neg hne]
      simpa using heq


/-! ## Lemmas about substring matching and the validator (claims C3, C4, C7) -/

theorem isPrefixB_iff : ∀ p s : Str, isPrefixB p s = true ↔ p <+: s
  | [], s => by
    show true = true ↔ _
    simp
  | a :: as, [] => by
    show false = true ↔ _
    simp
  | a :: as, b :: bs => by
    show (a == b && isPrefixB as bs) = true ↔ _
    simp [isPrefixB_iff as bs, List.cons_prefix_cons]

theorem isInfixB_iff (p : Str) : ∀ s : Str, isInfixB p s = true ↔ p <:+: s
  | [] => by
    show p.isEmpty = true ↔ _
    simp [List.isEmpty_iff]
  | c :: rest => by
    show (isPrefixB p (c :: rest) || isInfixB p rest) = true ↔ _
    simp only [Bool.or_eq_true, isPrefixB_iff, isInfixB_iff p rest, List.infix_cons_iff]

theorem SplitInv.mem : ∀ {s : Str} {l : List Str}, SplitInv s l → ∀ v ∈ l, v <:+: s := by
  intro s l h v hv
  cases l with
  | nil => simp at hv
  | cons w ws =>
    obtain ⟨h1, h2⟩ := h
    rcases List.mem_cons.mp hv with rfl | hv
    · exact h1.isInfix
    · exact h2 v hv

theorem splitWordsAcc_ws {c : Char} {acc : List Str} (h : c.isWhitespace = true) :
    splitWordsAcc c acc = [] :: acc := by
  unfold splitWordsAcc
  rw [if_pos h]

theorem splitWordsAcc_nil {c : Char} (h : c.isWhitespace = false) :
    splitWordsAcc c [] = [[c]] := by
  unfold splitWordsAcc
  rw [if_neg (by simp [h])]

theorem splitWordsAcc_cons {c : Char} {w : Str} {ws : List Str}
    (h : c.isWhitespace = false) : splitWordsAcc c (w :: ws) = (c :: w) :: ws := by
  unfold splitWordsAcc
  rw [if_neg (by simp [h])]

theorem splitWords_fold_inv : ∀ s : Str, SplitInv s (s.foldr splitWordsAcc []) := by
  intro s
  induction s with
  | nil => exact trivial
  | cons c s ih =>
    show SplitInv (c :: s) (splitWordsAcc c (s.foldr splitWordsAcc []))
    by_cases hw : c.isWhitespace = true
    · rw [splitWordsAcc_ws hw]
      exact ⟨List.nil_prefix, fun v hv => List.infix_cons (ih.mem v hv)⟩
    · replace hw : c.isWhitespace = false := by simpa using hw
      cases hfold : s.foldr splitWordsAcc [] with
      | nil =>
        rw [splitWordsAcc_nil hw]
        exact ⟨List.cons_prefix_cons.mpr ⟨rfl, List.nil_prefix⟩, by simp⟩
      | cons w ws =>
        rw [splitWordsAcc_cons hw]
        rw [hfold] at ih
        obtain ⟨h1, h2⟩ := ih
        exact ⟨List.cons_prefix_cons.mpr ⟨rfl, h1⟩,
          fun v hv => List.infix_cons (h2 v hv)⟩

theorem mem_splitWords_substr {w s : Str} (h : w ∈ splitWords s) : w <:+: s :=
  (splitWords_fold_inv s).mem w (List.mem_of_mem_filter h)

theorem mem_splitWords_ne_nil {w s : Str} (h : w ∈ splitWords s) : w ≠ [] := by
  have := List.of_mem_filter h
  simpa [List.isEmpty_iff] using this

theorem calculate_text_similarity_of_substr {company text : Str}
    (hc : company ≠ []) (ht : text ≠ [])
    (h : pyUpper company <:+: pyUpper text) :
    calculate_text_similarity company text = 1 := by
  rw [calculate_text_similarity, if_neg (by tauto)]
  by_cases hws : (splitWords (pyUpper company)).filter (fun w => 3 < w.length) = []
  · simp only [hws, if_pos]
    rw [if_pos (isInfixB_iff _ _ |>.mpr h)]
  · rw [if_neg hws]
    rw [List.countP_eq_length.mpr]
    · rw [div_self]
      simp only [ne_eq, Nat.cast_eq_zero, List.length_eq_zero]
      exact hws
    · intro w hw
      have h1 : w <:+: pyUpper company := mem_splitWords_substr (List.mem_of_mem_filter hw)
      exact (isInfixB_iff _ _).mpr (h1.trans h)


theorem company_scan_found_mono (thr : ℚ) (text : Str) :
    ∀ (l : List Str) (m : Option Str) (b : ℚ),
      (company_scan thr text l (true, m, b)).1 = true := by
  intro l
  induction l with
  | nil => intro m b; rfl
  | cons c rest ih =>
    intro m b
    show (if c = [] then company_scan thr text rest (true, m, b)
      else if isInfixB (pyUpper c) (pyUpper text) then ((true : Bool), some c, (1 : ℚ))
      else
        if thr ≤ calculate_text_similarity c text ∧ b < calculate_text_similarity c text then
          company_scan thr text rest (true, some c, calculate_text_similarity c text)
        else company_scan thr text rest (true, m, b)).1 = true
    split
    · exact ih m b
    · split
      · rfl
      · split
        · exact ih _ _
        · exact ih m b

theorem company_scan_found_iff (t : Str) :
    ∀ l : List Str,
      (company_scan (9 / 10) t l (false, none, 0)).1 = true ↔
        ∃ c ∈ l, c ≠ [] ∧
          (isInfixB (pyUpper c) (pyUpper t) = true ∨
            9 / 10 ≤ calculate_text_similarity c t) := by
  intro l
  induction l with
  | nil => simp [company_scan]
  | cons c rest ih =>
    show (if c = [] then company_scan (9 / 10) t rest (false, none, 0)
      else if isInfixB (pyUpper c) (pyUpper t) then ((true : Bool), some c, (1 : ℚ))
      else
        if 9 / 10 ≤ calculate_text_similarity c t ∧ (0 : ℚ) < calculate_text_similarity c t then
          company_scan (9 / 10) t rest (true, some c, calculate_text_similarity c t)
        else company_scan (9 / 10) t rest (false, none, 0)).1 = true ↔ _
    by_cases hc : c = []
    · rw [if_pos hc, ih]
      constructor
      · rintro ⟨d, hd, hprops⟩
        exact ⟨d, List.mem_cons_of_mem c hd, hprops⟩
      · rintro ⟨d, hd, hne, hprops⟩
        rcases List.mem_cons.mp hd with rfl | hd
        · exact absurd hc hne
        · exact ⟨d, hd, hne, hprops⟩
    · rw [if_neg hc]
      by_cases hinf : isInfixB (pyUpper c) (pyUpper t) = true
      · rw [if_pos hinf]
        simp only [show ((true : Bool), some c, (1 : ℚ)).1 = true from rfl, true_iff]
        exact ⟨c, List.mem_cons_self c rest, hc, Or.inl hinf⟩
      · rw [if_neg hinf]
        by_cases hsim : 9 / 10 ≤ calculate_text_similarity c t
        · rw [if_pos ⟨hsim, by linarith⟩, company_scan_found_mono]
          simp only [true_iff]
          exact ⟨c, List.mem_cons_self c rest, hc, Or.inr hsim⟩
        · rw [if_neg (by tauto), ih]
          constructor
          · rintro ⟨d, hd, hprops⟩
            exact ⟨d, List.mem_cons_of_mem c hd, hprops⟩
          · rintro ⟨d, hd, hne, hprops⟩
            rcases List.mem_cons.mp hd with rfl | hd
            · rcases hprops with h | h
              · exact absurd h hinf
              · exact absurd h hsim
            · exact ⟨d, hd, hne, hprops⟩

theorem max_sim_foldl_lt_iff (t : Str) (x : ℚ) :
    ∀ (l : List Str) (a : ℚ),
      (l.foldl (fun m c => if c = [] then m else max m (calculate_text_similarity c t)) a < x ↔
        a < x ∧ ∀ c ∈ l, c ≠ [] → calculate_text_similarity c t < x) := by
  intro l
  induction l with
  | nil => intro a; simp
  | cons c rest ih =>
    intro a
    rw [List.foldl_cons]
    by_cases hc : c = []
    · rw [if_pos hc, ih]
      constructor
      · rintro ⟨ha, hall⟩
        refine ⟨ha, fun d hd hne => ?_⟩
        rcases List.mem_cons.mp hd with rfl | hd
        · exact absurd hc hne
        · exact hall d hd hne
      · rintro ⟨ha, hall⟩
        exact ⟨ha, fun d hd hne => hall d (List.mem_cons_of_mem c hd) hne⟩
    · rw [if_neg hc, ih, max_lt_iff]
      constructor
      · rintro ⟨⟨ha, hcsim⟩, hall⟩
        refine ⟨ha, fun d hd hne => ?_⟩
        rcases List.mem_cons.mp hd with rfl | hd
        · exact hcsim
        · exact hall d hd hne
      · rintro ⟨ha, hall⟩
        exact ⟨⟨ha, hall c (List.mem_cons_self c rest) hc⟩,
          fun d hd hne => hall d (List.mem_cons_of_mem c hd) hne⟩

theorem max_similarity_lt_iff (companies : List Str) (t : Str) (x : ℚ) (hx : 0 < x) :
    max_similarity companies t < x ↔
      ∀ c ∈ companies, c ≠ [] → calculate_text_similarity c t < x := by
  rw [max_similarity, max_sim_foldl_lt_iff]
  simp [hx]


theorem company_found_iff_max (companies : List Str) (t : Str) (ht : t ≠ []) :
    (company_scan (9 / 10) t companies (false, none, 0)).1 = true ↔
      9 / 10 ≤ max_similarity companies t := by
  rw [company_scan_found_iff t companies]
  constructor
  · rintro ⟨c, hc, hne, hprops⟩
    have hsim : 9 / 10 ≤ calculate_text_similarity c t := by
      rcases hprops with h | h
      · rw [calculate_text_similarity_of_substr hne ht ((isInfixB_iff _ _).mp h)]
        norm_num
      · exact h
    by_contra hmax
    rw [not_le] at hmax
    exact absurd ((max_similarity_lt_iff companies t _ (by norm_num)).mp hmax c hc hne)
      (by linarith)
  · intro hmax
    by_contra hnone
    push_neg at hnone
    have : max_similarity companies t < 9 / 10 := by
      rw [max_similarity_lt_iff companies t _ (by norm_num)]
      intro c hc hne
      rcases hnone c hc hne with ⟨-, h2⟩
      · exact h2
    linarith

/-- Claim C4: a candidate with no document text, or whose brand has no
company names, is classified `Unknown` and appended to the retained
(`validated_matches`) set, never to the rejected set. -/
theorem validator_missing_data_unknown (companies : List Str) (text : Option Str)
    (h : text = none ∨ companies = []) :
    validate_row companies text = (VStatus.unknown, true) := by
  rcases h with rfl | rfl
  · rfl
  · cases text with
    | none => rfl
    | some t =>
      rw [validate_row, if_pos (Or.inr rfl)]

/-- Witness for claim C4 at a concrete candidate with a company list but
no document text. -/
theorem validator_missing_data_unknown_witness :
    validate_row [['A']] none = (VStatus.unknown, true) :=
  validator_missing_data_unknown [['A']] none (Or.inl rfl)

/-- Claim C3: with document text and a nonempty brand company list, the
validator classifies by the best `calculate_text_similarity` score across
the brand companies: at least 0.9 gives `Validated`, strictly below 0.2
gives `Rejected` (the only branch that puts the row in the rejected set),
and anything in between — the 0.2 boundary included — gives `Unknown`
with the row kept in the retained set. -/
theorem validator_threshold_classification (companies : List Str) (t : Str)
    (h1 : t ≠ []) (h2 : companies ≠ []) :
    (9 / 10 ≤ max_similarity companies t →
        validate_row companies (some t) = (VStatus.validated, true)) ∧
      (max_similarity companies t < 1 / 5 →
        validate_row companies (some t) = (VStatus.rejected, false)) ∧
      (1 / 5 ≤ max_similarity companies t → max_similarity companies t < 9 / 10 →
        validate_row companies (some t) = (VStatus.unknown, true)) := by
  have hguard : ¬(t = [] ∨ companies = []) := by tauto
  refine ⟨fun h => ?_, fun h => ?_, fun hlo hhi => ?_⟩
  · rw [validate_row, if_neg hguard,
      if_pos ((company_found_iff_max companies t h1).mpr h)]
  · have hnf : ¬(company_scan (9 / 10) t companies (false, none, 0)).1 = true := by
      rw [company_found_iff_max companies t h1]
      intro hge
      linarith
    rw [validate_row, if_neg hguard, if_neg (by simpa using hnf), if_pos h]
  · have hnf : ¬(company_scan (9 / 10) t companies (false, none, 0)).1 = true := by
      rw [company_found_iff_max companies t h1]
      intro hge
      linarith
    rw [validate_row, if_neg hguard, if_neg (by simpa using hnf),
      if_neg (by rw [not_lt]; exact hlo)]

/-- Witness for claim C3: a candidate whose single brand company occurs
verbatim in the document text is Validated. -/
theorem validator_threshold_classification_witness :
    validate_row ["ACME CORP".data] (some "LETTER FROM ACME CORP".data) =
      (VStatus.validated, true) := by
  have hsim : calculate_text_similarity "ACME CORP".data "LETTER FROM ACME CORP".data = 1 :=
    calculate_text_similarity_of_substr (by decide) (by decide)
      ((isInfixB_iff (pyUpper "ACME CORP".data)
        (pyUpper "LETTER FROM ACME CORP".data)).mp (by decide))
  have hmax : (9 : ℚ) / 10 ≤ max_similarity ["ACME CORP".data] "LETTER FROM ACME CORP".data := by
    rw [max_similarity, List.foldl_cons, List.foldl_nil, if_neg (by decide), hsim]
    norm_num
  exact (validator_threshold_classification ["ACME CORP".data] "LETTER FROM ACME CORP".data
    (by decide) (by decide)).1 hmax


/-- Claim C7 (counterexample): for the empty company name the code
returns `0.0` unconditionally (the falsy-guard early return), while the
claimed formula — zero qualifying words, whole name (the empty string)
trivially occurring in the text — yields `1.0`. -/
theorem text_similarity_formula_cex :
    calculate_text_similarity [] ['X'] = 0 ∧ spec_text_similarity [] ['X'] = 1 := by
  constructor
  · rfl
  · decide

/-- Claim C7 (amended): for every *nonempty* company name the similarity
score equals the claimed formula — the fraction of company-name words
longer than 3 characters occurring (case-insensitively) in the document
text, with the binary whole-name fallback when no word qualifies. -/
theorem text_similarity_formula (company text : Str) (hc : company ≠ []) :
    calculate_text_similarity company text = spec_text_similarity company text := by
  by_cases ht : text = []
  · subst ht
    rw [calculate_text_similarity, if_pos (Or.inr rfl), spec_text_similarity]
    by_cases hws : (splitWords (pyUpper company)).filter (fun w => 3 < w.length) = []
    · rw [if_pos hws, if_neg, eq_comm]
      intro habs
      have h0 : pyUpper company = [] := List.infix_nil.mp ((isInfixB_iff _ _).mp habs)
      exact hc (by simpa [pyUpper] using h0)
    · rw [if_neg hws]
      rw [List.countP_eq_zero.mpr]
      · simp
      · intro w hw
        have hne : w ≠ [] := mem_splitWords_ne_nil (List.mem_of_mem_filter hw)
        simp [isInfixB, List.isEmpty_iff, hne]
  · rw [calculate_text_similarity, if_neg (by tauto), spec_text_similarity]

/-- Witness for the amended claim C7 at a concrete nonempty company
name. -/
theorem text_similarity_formula_witness :
    calculate_text_similarity "ACME PHARMA".data "ACME LETTER".data =
      spec_text_similarity "ACME PHARMA".data "ACME LETTER".data :=
  text_similarity_formula "ACME PHARMA".data "ACME LETTER".data (by decide)


/-! ## The match-list export/parse round trip (claim C6) -/
theorem digit_not_ws {c : Char} (h : c.isDigit = true) : c.isWhitespace = false := by
  by_contra hw
  rw [Bool.not_eq_false, Char.isWhitespace] at hw
  simp only [Bool.or_eq_true, decide_eq_true_eq] at hw
  rcases hw with ((rfl | rfl) | rfl) | rfl <;> revert h <;> decide

theorem dropWhile_eq_self_of_nonws {l : Str} (h : ∀ c ∈ l, c.isWhitespace = false) :
    l.dropWhile Char.isWhitespace = l := by
  cases l with
  | nil => rfl
  | cons c t =>
    rw [List.dropWhile_cons, if_neg]
    rw [h c (List.mem_cons_self c t)]
    simp

theorem rstrip_append_of_nonws {p : Str} (r : Str)
    (h : ∀ c ∈ p, c.isWhitespace = false) :
    rstrip (p ++ r) = p ++ rstrip r := by
  rw [rstrip, List.reverse_append, List.dropWhile_append]
  have hp : List.dropWhile Char.isWhitespace p.reverse = p.reverse :=
    dropWhile_eq_self_of_nonws (by simpa using h)
  by_cases hr : (List.dropWhile Char.isWhitespace r.reverse).isEmpty
  · rw [if_pos hr, hp, List.reverse_reverse]
    rw [List.isEmpty_iff] at hr
    rw [rstrip, hr]
    simp
  · rw [if_neg hr, List.reverse_append, List.reverse_reverse, rstrip]

theorem pstrip_append_of_nonws {p : Str} (r : Str) (hne : p ≠ [])
    (h : ∀ c ∈ p, c.isWhitespace = false) :
    pstrip (p ++ r) = p ++ rstrip r := by
  rw [pstrip, rstrip_append_of_nonws r h, lstrip]
  cases p with
  | nil => exact absurd rfl hne
  | cons c t =>
    rw [List.cons_append, List.dropWhile_cons, if_neg]
    rw [h c (List.mem_cons_self c t)]
    simp

theorem pstrip_eq_self_of_nonws {l : Str} (h : ∀ c ∈ l, c.isWhitespace = false) :
    pstrip l = l := by
  rw [pstrip, rstrip, dropWhile_eq_self_of_nonws (by simpa using h),
    List.reverse_reverse, lstrip, dropWhile_eq_self_of_nonws h]

theorem rstrip_concat_of_nonws {l : Str} {c : Char} (h : c.isWhitespace = false) :
    rstrip (l ++ [c]) = l ++ [c] := by
  rw [rstrip, List.reverse_append]
  show ((c :: l.reverse).dropWhile Char.isWhitespace).reverse = _
  rw [List.dropWhile_cons, if_neg (by rw [h]; simp)]
  rw [List.reverse_cons, List.reverse_reverse]

theorem isPrefixB_of_prefix_prefix {p q : Str} (r : Str) (h : p <+: q) :
    isPrefixB p (q ++ r) = true :=
  (isPrefixB_iff p (q ++ r)).mpr (h.trans (q.prefix_append r))


theorem parse_step_skip {acc : List (Str × List Str)} {line : Str}
    (h : parse_skip_cond (pstrip line) = true) :
    parse_step acc line = acc := by
  rw [parse_step]
  split
  · rfl
  · rename_i hc
    exact absurd h hc

theorem parse_step_no_match {acc : List (Str × List Str)} {line : Str}
    (h : parse_data_line (pstrip line) = none) :
    parse_step acc line = acc := by
  rw [parse_step]
  split
  · rfl
  · rw [h]

theorem takeWhile_digits_append {a : Str} (b : Char) (t : Str)
    (ha : ∀ c ∈ a, c.isDigit = true) (hb : b.isDigit = false) :
    (a ++ b :: t).takeWhile Char.isDigit = a ∧
      (a ++ b :: t).dropWhile Char.isDigit = b :: t := by
  induction a with
  | nil =>
    rw [List.nil_append, List.takeWhile_cons, List.dropWhile_cons]
    rw [hb]
    simp
  | cons c a ih =>
    have hc := ha c (List.mem_cons_self c a)
    obtain ⟨ih1, ih2⟩ := ih (fun d hd => ha d (List.mem_cons_of_mem c hd))
    rw [List.cons_append, List.takeWhile_cons, List.dropWhile_cons, hc]
    simp only [if_true, if_pos]
    exact ⟨by rw [ih1], by rw [ih2]⟩

theorem join_head_append : ∀ (g : Str) (gs : List Str), ∃ t : Str,
    joinCommaSpace (g :: gs) = g ++ t
  | g, [] => ⟨[], by rw [joinCommaSpace, List.append_nil]⟩
  | g, g2 :: rest => ⟨", ".data ++ joinCommaSpace (g2 :: rest), by rw [joinCommaSpace, List.append_assoc]⟩

theorem join_last_digit : ∀ gs : List Str, gs ≠ [] →
    (∀ g ∈ gs, g ≠ [] ∧ ∀ c ∈ g, c.isDigit = true) →
    ∃ (l : Str) (c : Char), joinCommaSpace gs = l ++ [c] ∧ c.isDigit = true := by
  intro gs
  induction gs with
  | nil => intro h; exact absurd rfl h
  | cons g rest ih =>
    intro _ hall
    cases rest with
    | nil =>
      obtain ⟨hg, hdig⟩ := hall g (List.mem_cons_self g [])
      rcases List.eq_nil_or_concat g with rfl | ⟨l, c, hlc⟩
      · exact absurd rfl hg
      · rw [List.concat_eq_append] at hlc
        exact ⟨l, c, by rw [joinCommaSpace, hlc],
          hdig c (by rw [hlc]; exact List.mem_append_right l (List.mem_singleton_self c))⟩
    | cons g2 rest2 =>
      obtain ⟨l, c, hlc, hc⟩ := ih (by simp)
        (fun g hg => hall g (List.mem_cons_of_mem _ hg))
      exact ⟨g ++ ", ".data ++ l, c, by rw [joinCommaSpace, hlc, List.append_assoc,
        List.append_assoc, List.append_assoc], hc⟩


theorem splitOnChar_ne_nil (sep : Char) : ∀ s : Str, splitOnChar sep s ≠ [] := by
  intro s
  induction s with
  | nil => simp [splitOnChar]
  | cons c t ih =>
    rw [splitOnChar]
    by_cases hc : (c == sep) = true
    · rw [if_pos hc]
      simp
    · rw [if_neg hc]
      cases h : splitOnChar sep t with
      | nil => exact absurd h ih
      | cons w ws => simp

theorem splitOnChar_cons_sep {sep : Char} (s : Str) :
    splitOnChar sep (sep :: s) = [] :: splitOnChar sep s := by
  rw [splitOnChar, if_pos (by simp)]

theorem splitOnChar_cons_ne {sep c : Char} (s : Str) (hc : (c == sep) = false) :
    splitOnChar sep (c :: s) =
      (c :: (splitOnChar sep s).headI) :: (splitOnChar sep s).tail := by
  rw [splitOnChar, if_neg (by rw [hc]; simp)]
  cases h : splitOnChar sep s with
  | nil => exact absurd h (splitOnChar_ne_nil sep s)
  | cons w ws => rfl

theorem splitOnChar_append_no_sep {sep : Char} :
    ∀ (a s : Str), (∀ c ∈ a, (c == sep) = false) →
      splitOnChar sep (a ++ s) =
        (a ++ (splitOnChar sep s).headI) :: (splitOnChar sep s).tail := by
  intro a
  induction a with
  | nil =>
    intro s _
    rw [List.nil_append, List.nil_append]
    cases hs : splitOnChar sep s with
    | nil => exact absurd hs (splitOnChar_ne_nil sep s)
    | cons w ws => rfl
  | cons c a ih =>
    intro s hall
    rw [List.cons_append,
      splitOnChar_cons_ne (a ++ s) (hall c (List.mem_cons_self c a)),
      ih s (fun d hd => hall d (List.mem_cons_of_mem c hd))]
    rfl

theorem splitOnChar_no_sep {sep : Char} (a : Str) (h : ∀ c ∈ a, (c == sep) = false) :
    splitOnChar sep a = [a] := by
  have := splitOnChar_append_no_sep a [] h
  simpa [splitOnChar] using this

theorem splitOnChar_join : ∀ (g : Str) (gs : List Str),
    (∀ x ∈ g :: gs, ∀ c ∈ x, (c == ',') = false) →
    splitOnChar ',' (joinCommaSpace (g :: gs)) =
      g :: gs.map (fun x => ' ' :: x) := by
  intro g gs
  induction gs generalizing g with
  | nil =>
    intro h
    rw [joinCommaSpace, splitOnChar_no_sep g (h g (List.mem_cons_self g []))]
    rfl
  | cons g2 rest ih =>
    intro h
    rw [joinCommaSpace]
    rw [show g ++ ", ".data ++ joinCommaSpace (g2 :: rest) =
      g ++ (',' :: ' ' :: joinCommaSpace (g2 :: rest)) from by
        rw [List.append_assoc]; rfl]
    rw [splitOnChar_append_no_sep g _ (h g (List.mem_cons_self g _)),
      splitOnChar_cons_sep, splitOnChar_cons_ne _ (by decide),
      ih g2 (fun x hx => h x (List.mem_cons_of_mem g hx))]
    simp


theorem valid6_iff {g : Str} : valid6 g = true ↔ g.length = 6 ∧ ∀ c ∈ g, c.isDigit = true := by
  simp [valid6, List.all_eq_true]

theorem digit_ne_comma {c : Char} (h : c.isDigit = true) : (c == ',') = false := by
  by_cases hc : c = ','
  · subst hc
    exact absurd h (by decide)
  · exact beq_eq_false_iff_ne.mpr hc

theorem zfill_valid6 {g : Str} (h : valid6 g = true) : zfill 6 g = g := by
  obtain ⟨hlen, hdig⟩ := valid6_iff.mp h
  cases g with
  | nil => simp at hlen
  | cons c rest =>
    have hc := hdig c (List.mem_cons_self c rest)
    have hplus : (c == '+') = false := by
      by_cases h1 : c = '+'
      · subst h1; exact absurd hc (by decide)
      · exact beq_eq_false_iff_ne.mpr h1
    have hminus : (c == '-') = false := by
      by_cases h1 : c = '-'
      · subst h1; exact absurd hc (by decide)
      · exact beq_eq_false_iff_ne.mpr h1
    rw [zfill, if_neg (by rw [hplus, hminus]; simp)]
    have : rest.length + 1 = 6 := by simpa using hlen
    rw [this]
    simp

theorem pstrip_valid6 {g : Str} (h : valid6 g = true) : pstrip g = g :=
  pstrip_eq_self_of_nonws fun c hc => digit_not_ws ((valid6_iff.mp h).2 c hc)

theorem pstrip_space_valid6 {g : Str} (h : valid6 g = true) : pstrip (' ' :: g) = g := by
  obtain ⟨hlen, hdig⟩ := valid6_iff.mp h
  have hne : g ≠ [] := by
    intro h0
    rw [h0] at hlen
    simp at hlen
  rcases List.eq_nil_or_concat g with rfl | ⟨l, c, hlc⟩
  · exact absurd rfl hne
  · rw [List.concat_eq_append] at hlc
    have hrs : rstrip (' ' :: g) = ' ' :: g := by
      rw [show ' ' :: g = (' ' :: l) ++ [c] from by rw [hlc]; rfl]
      exact rstrip_concat_of_nonws
        (digit_not_ws (hdig c (by rw [hlc]; exact List.mem_append_right l (List.mem_singleton_self c))))
    rw [pstrip, hrs, lstrip, List.dropWhile_cons, if_pos (by decide)]
    cases g with
    | nil => exact absurd rfl hne
    | cons d t =>
      rw [List.dropWhile_cons,
        if_neg (by rw [digit_not_ws (hdig d (List.mem_cons_self d t))]; simp)]

theorem pdedupAux_eq_self {seen : List Str} :
    ∀ {l : List Str}, l.Nodup → (∀ x ∈ l, x ∉ seen) → pdedupAux seen l = l := by
  intro l
  induction l generalizing seen with
  | nil => intro _ _; rfl
  | cons x xs ih =>
    intro hnd hfresh
    rw [pdedupAux, if_neg (hfresh x (List.mem_cons_self x xs))]
    rw [ih (List.Nodup.of_cons hnd)]
    intro y hy
    rw [List.mem_cons, not_or]
    exact ⟨fun h0 => (List.nodup_cons.mp hnd).1 (h0 ▸ hy),
      hfresh y (List.mem_cons_of_mem x hy)⟩

theorem pdedup_eq_self {l : List Str} (h : l.Nodup) : pdedup l = l :=
  pdedupAux_eq_self h (by simp)

theorem dictInsert_append {k : Str} {v : List Str} :
    ∀ {acc : List (Str × List Str)}, k ∉ acc.map Prod.fst →
      dictInsert k v acc = acc ++ [(k, v)] := by
  intro acc
  induction acc with
  | nil => intro _; rfl
  | cons p rest ih =>
    intro hk
    rw [List.map_cons, List.mem_cons, not_or] at hk
    rw [dictInsert, if_neg (fun h0 => hk.1 h0.symm), ih hk.2, List.cons_append]

theorem lexLt_irrefl : ∀ s : Str, lexLt s s = false := by
  intro s
  induction s with
  | nil => rfl
  | cons a as ih =>
    rw [lexLt, if_neg (lt_irrefl a), if_neg (lt_irrefl a)]
    exact ih

theorem lexLt_ne {a b : Str} (h : lexLt a b = true) : a ≠ b := by
  intro h0
  subst h0
  rw [lexLt_irrefl a] at h
  exact absurd h (by simp)

theorem sortBy_eq_self_of_chain {α : Type} (lt : α → α → Bool) :
    ∀ l : List α, List.Chain' (fun a b => lt a b = true) l → sortBy lt l = l := by
  intro l
  induction l with
  | nil => intro _; rfl
  | cons x xs ih =>
    intro hch
    rw [sortBy, ih (hch.tail)]
    cases xs with
    | nil => rfl
    | cons y ys =>
      rw [insertBy, if_pos (List.chain'_cons.mp hch).1]

theorem length_insertBy {α : Type} (lt : α → α → Bool) (x : α) :
    ∀ l : List α, (insertBy lt x l).length = l.length + 1 := by
  intro l
  induction l with
  | nil => rfl
  | cons y ys ih =>
    rw [insertBy]
    split
    · simp
    · rw [List.length_cons, ih]
      simp [List.length_cons]

theorem mem_insertBy {α : Type} (lt : α → α → Bool) (x a : α) :
    ∀ l : List α, a ∈ insertBy lt x l ↔ a = x ∨ a ∈ l := by
  intro l
  induction l with
  | nil => simp [insertBy]
  | cons y ys ih =>
    rw [insertBy]
    split
    · simp [List.mem_cons]
    · rw [List.mem_cons, ih, List.mem_cons]
      tauto

theorem mem_sortBy {α : Type} (lt : α → α → Bool) (a : α) :
    ∀ l : List α, a ∈ sortBy lt l ↔ a ∈ l := by
  intro l
  induction l with
  | nil => simp [sortBy]
  | cons x xs ih =>
    rw [sortBy, mem_insertBy, ih, List.mem_cons]

theorem sortBy_ne_nil {α : Type} (lt : α → α → Bool) {l : List α} (h : l ≠ []) :
    sortBy lt l ≠ [] := by
  cases l with
  | nil => exact absurd rfl h
  | cons x xs =>
    intro h0
    have := length_insertBy lt x (sortBy lt xs)
    rw [show sortBy lt (x :: xs) = insertBy lt x (sortBy lt xs) from rfl] at h0
    rw [h0] at this
    simp at this


theorem parse_skip_cond_N {rest : Str} : parse_skip_cond ('N' :: rest) = false := rfl

theorem parse_data_line_NDA {id tail : Str} (hid : id ≠ [])
    (hdig : ∀ c ∈ id, c.isDigit = true) :
    parse_data_line ('N' :: 'D' :: 'A' :: (id ++ ':' :: tail)) =
      (if (tail.dropWhile Char.isWhitespace).isEmpty then none
       else some (id, tail.dropWhile Char.isWhitespace)) := by
  rw [parse_data_line]
  obtain ⟨htake, hdrop⟩ := takeWhile_digits_append ':' tail hdig (by decide)
  rw [htake, hdrop, if_neg (by simpa [List.isEmpty_iff] using hid)]
  rfl


theorem valid6_ne_nil {g : Str} (h : valid6 g = true) : g ≠ [] := by
  intro h0
  have := (valid6_iff.mp h).1
  rw [h0] at this
  simp at this

theorem parse_step_data_line {acc : List (Str × List Str)} {nda : Str} {andas : List Str}
    (hnda : valid6 nda = true) (hne : andas ≠ [])
    (hall : ∀ g ∈ andas, valid6 g = true) :
    parse_step acc (render_match_line nda andas) =
      dictInsert nda (pdedup (sortBy lexLt andas)) acc := by
  obtain ⟨hlen, hdig⟩ := valid6_iff.mp hnda
  set gs := sortBy lexLt andas with hgs
  have hgs_ne : gs ≠ [] := sortBy_ne_nil lexLt hne
  have hgs_all : ∀ g ∈ gs, valid6 g = true :=
    fun g hg => hall g ((mem_sortBy lexLt g andas).mp hg)
  obtain ⟨g1, grest, hg1⟩ := List.exists_cons_of_ne_nil hgs_ne
  have hline : render_match_line nda andas =
      ('N' :: 'D' :: 'A' :: (nda ++ [':'])) ++ (' ' :: joinCommaSpace gs) := by
    rw [render_match_line, ← hgs]
    simp
  obtain ⟨jl, jc, hjl, hjc⟩ := join_last_digit gs hgs_ne
    (fun g hg => ⟨valid6_ne_nil (hgs_all g hg), (valid6_iff.mp (hgs_all g hg)).2⟩)
  have hrstrip : rstrip (' ' :: joinCommaSpace gs) = ' ' :: joinCommaSpace gs := by
    have h1 : rstrip ((' ' :: jl) ++ [jc]) = (' ' :: jl) ++ [jc] :=
      rstrip_concat_of_nonws (digit_not_ws hjc)
    calc rstrip (' ' :: joinCommaSpace gs)
        = rstrip ((' ' :: jl) ++ [jc]) := by rw [List.cons_append, ← hjl]
      _ = (' ' :: jl) ++ [jc] := h1
      _ = ' ' :: joinCommaSpace gs := by rw [List.cons_append, ← hjl]
  have hpnonws : ∀ c ∈ 'N' :: 'D' :: 'A' :: (nda ++ [':']), c.isWhitespace = false := by
    intro c hc
    rcases List.mem_cons.mp hc with rfl | hc
    · decide
    rcases List.mem_cons.mp hc with rfl | hc
    · decide
    rcases List.mem_cons.mp hc with rfl | hc
    · decide
    rcases List.mem_append.mp hc with hc | hc
    · exact digit_not_ws (hdig c hc)
    · rw [List.mem_singleton.mp hc]
      decide
  have hstrip : pstrip (render_match_line nda andas) =
      'N' :: 'D' :: 'A' :: (nda ++ ':' :: ' ' :: joinCommaSpace gs) := by
    rw [hline, pstrip_append_of_nonws _ (by simp) hpnonws, hrstrip]
    simp
  have hdw : (' ' :: joinCommaSpace gs).dropWhile Char.isWhitespace = joinCommaSpace gs := by
    rw [List.dropWhile_cons, if_pos (by decide)]
    obtain ⟨t, ht⟩ := join_head_append g1 grest
    rw [hg1, ht]
    cases hg1c : g1 with
    | nil => exact absurd (hg1c ▸ hgs_all g1 (hg1 ▸ List.mem_cons_self g1 grest)) (by decide)
    | cons d dr =>
      have hd : d.isDigit = true := by
        have := (valid6_iff.mp (hgs_all g1 (hg1 ▸ List.mem_cons_self g1 grest))).2
        exact this d (hg1c ▸ List.mem_cons_self d dr)
      rw [List.cons_append, List.dropWhile_cons, if_neg (by rw [digit_not_ws hd]; simp)]
  have hjoin_ne : (joinCommaSpace gs).isEmpty = false := by
    rw [hjl]
    cases jl <;> rfl
  have hnda_ne : nda ≠ [] := valid6_ne_nil hnda
  rw [parse_step, hstrip, parse_skip_cond_N, if_neg (by simp)]
  rw [parse_data_line_NDA hnda_ne hdig, hdw, if_neg (by rw [hjoin_ne]; simp)]
  show dictInsert (zfill 6 nda)
      (pdedup ((((splitOnChar ',' (joinCommaSpace gs)).map pstrip).filter
        (fun t => !t.isEmpty)).map (zfill 6))) acc = dictInsert nda (pdedup gs) acc
  have hsplit : splitOnChar ',' (joinCommaSpace gs) =
      g1 :: grest.map (fun x => ' ' :: x) := by
    rw [hg1]
    exact splitOnChar_join g1 grest
      (fun x hx c hc => digit_ne_comma ((valid6_iff.mp (hgs_all x (hg1 ▸ hx))).2 c hc))
  rw [hsplit]
  have hmap : (g1 :: grest.map (fun x => ' ' :: x)).map pstrip = g1 :: grest := by
    rw [List.map_cons, List.map_map,
      pstrip_valid6 (hgs_all g1 (hg1 ▸ List.mem_cons_self g1 grest))]
    congr 1
    rw [show pstrip ∘ (fun x => ' ' :: x) = fun x : Str => pstrip (' ' :: x) from rfl]
    rw [List.map_congr_left
      (fun x hx => pstrip_space_valid6 (hgs_all x (hg1 ▸ List.mem_cons_of_mem g1 hx)))]
    exact List.map_id grest
  rw [hmap]
  have hfilter : (g1 :: grest).filter (fun t => !t.isEmpty) = g1 :: grest := by
    rw [List.filter_eq_self]
    intro a ha
    have : a ≠ [] := valid6_ne_nil (hgs_all a (hg1 ▸ ha))
    simpa [List.isEmpty_iff] using this
  rw [hfilter]
  have hzfill : (g1 :: grest).map (zfill 6) = g1 :: grest := by
    rw [List.map_congr_left (fun x hx => zfill_valid6 (hgs_all x (hg1 ▸ hx)))]
    exact List.map_id _
  rw [hzfill, zfill_valid6 hnda, ← hg1]


theorem parse_skip_cond_total (r : Str) :
    parse_skip_cond (pstrip ("Total".data ++ r)) = true := by
  rw [pstrip_append_of_nonws r (by decide) (by decide)]
  rw [parse_skip_cond, isPrefixB_of_prefix_prefix _ (List.prefix_refl _)]
  simp

theorem parse_skip_cond_generated (ts : Str) :
    parse_skip_cond (pstrip ("Generated: ".data ++ ts)) = true := by
  rw [show "Generated: ".data ++ ts = "Generated:".data ++ (' ' :: ts) from by
    rw [show "Generated: ".data = "Generated:".data ++ [' '] from rfl, List.append_assoc]
    rfl]
  rw [pstrip_append_of_nonws _ (by decide) (by decide)]
  rw [parse_skip_cond, isPrefixB_of_prefix_prefix _
    ((isPrefixB_iff "Generated".data "Generated:".data).mp (by decide))]
  simp

theorem foldl_parse_data_lines :
    ∀ (m : List (Str × List Str)) (acc : List (Str × List Str)),
      (∀ p ∈ m, valid6 p.1 = true ∧ p.2 ≠ [] ∧ ∀ g ∈ p.2, valid6 g = true) →
      List.Pairwise (fun p q => lexLt p.1 q.1 = true) m →
      (∀ p ∈ m, p.1 ∉ acc.map Prod.fst) →
      List.foldl parse_step acc (m.map fun p => render_match_line p.1 p.2) =
        acc ++ m.map fun p => (p.1, pdedup (sortBy lexLt p.2)) := by
  intro m
  induction m with
  | nil =>
    intro acc _ _ _
    simp
  | cons p m ih =>
    intro acc hvalid hpw hfresh
    obtain ⟨h1, h2, h3⟩ := hvalid p (List.mem_cons_self p m)
    obtain ⟨hrel, hpw2⟩ := List.pairwise_cons.mp hpw
    rw [List.map_cons, List.foldl_cons, parse_step_data_line h1 h2 h3,
      dictInsert_append (hfresh p (List.mem_cons_self p m)),
      ih (acc ++ [(p.1, pdedup (sortBy lexLt p.2))])
        (fun q hq => hvalid q (List.mem_cons_of_mem p hq)) hpw2 ?_]
    · rw [List.map_cons, List.append_assoc]
      rfl
    · intro q hq
      rw [List.map_append, List.mem_append, not_or]
      refine ⟨hfresh q (List.mem_cons_of_mem p hq), ?_⟩
      have hne : q.1 ≠ p.1 := fun h0 => (lexLt_ne (hrel q hq)) h0.symm
      simp [hne]


/-- Claim C6 (amended): re-parsing the exported match-list report
reconstructs, for each exported brand, the key paired with the sorted,
duplicate-free version of its generic list — provided every application
number is already a zero-padded 6-digit numeric string (the parser
re-pads with `zfill(6)`, so shorter ids come back changed) and the
brand keys are strictly sorted; when moreover every generic list is
itself strictly sorted (hence duplicate-free), the reconstructed mapping
is identical to the exported one. -/
theorem matches_export_parse_roundtrip (ts : Str) (m : List (Str × List Str))
    (hkeys : List.Pairwise (fun p q => lexLt p.1 q.1 = true) m)
    (hvalid : ∀ p ∈ m, valid6 p.1 = true ∧ p.2 ≠ [] ∧ ∀ g ∈ p.2, valid6 g = true) :
    parse_matches_file (export_nda_anda_matches ts m) =
        m.map (fun p => (p.1, pdedup (sortBy lexLt p.2))) ∧
      ((∀ p ∈ m, List.Pairwise (fun a b => lexLt a b = true) p.2) →
        parse_matches_file (export_nda_anda_matches ts m) = m) := by
  have hmain : parse_matches_file (export_nda_anda_matches ts m) =
      m.map (fun p => (p.1, pdedup (sortBy lexLt p.2))) := by
    rw [parse_matches_file, export_nda_anda_matches]
    by_cases hm : m = []
    · subst hm
      rw [if_pos rfl]
      rw [show ([eq80line, titleLine, eq80line, "Generated: ".data ++ ts, []] ++
          ["No validated matches found.".data]) =
        eq80line :: titleLine :: eq80line :: ("Generated: ".data ++ ts) :: [] ::
          ["No validated matches found.".data] from rfl]
      rw [List.foldl_cons, parse_step_skip (by decide),
        List.foldl_cons, parse_step_no_match (by decide),
        List.foldl_cons, parse_step_skip (by decide),
        List.foldl_cons, parse_step_skip (parse_skip_cond_generated ts),
        List.foldl_cons, parse_step_skip (by decide),
        List.foldl_cons, parse_step_no_match (by decide)]
      rfl
    · rw [if_neg hm]
      have hsort : sortBy (fun p q : Str × List Str => lexLt p.1 q.1) m = m :=
        sortBy_eq_self_of_chain _ m hkeys.chain'
      rw [hsort]
      rw [show ([eq80line, titleLine, eq80line, "Generated: ".data ++ ts, []] ++
          (["Total NDAs with matches: ".data ++ natToStr m.length,
            "Total validated ANDA matches: ".data ++
              natToStr (m.map fun p => p.2.length).sum,
            [], dash80line, []] ++
            m.map fun p => render_match_line p.1 p.2)) =
        eq80line :: titleLine :: eq80line :: ("Generated: ".data ++ ts) :: [] ::
          ("Total NDAs with matches: ".data ++ natToStr m.length) ::
          ("Total validated ANDA matches: ".data ++
            natToStr (m.map fun p => p.2.length).sum) ::
          [] :: dash80line :: [] ::
          (m.map fun p => render_match_line p.1 p.2) from rfl]
      rw [List.foldl_cons, parse_step_skip (by decide),
        List.foldl_cons, parse_step_no_match (by decide),
        List.foldl_cons, parse_step_skip (by decide),
        List.foldl_cons, parse_step_skip (parse_skip_cond_generated ts),
        List.foldl_cons, parse_step_skip (by decide)]
      rw [List.foldl_cons, parse_step_skip (by
        rw [show "Total NDAs with matches: ".data ++ natToStr m.length =
          "Total".data ++ (" NDAs with matches: ".data ++ natToStr m.length) from by
            rw [show "Total NDAs with matches: ".data =
              "Total".data ++ " NDAs with matches: ".data from rfl, List.append_assoc]]
        exact parse_skip_cond_total _)]
      rw [List.foldl_cons, parse_step_skip (by
        rw [show "Total validated ANDA matches: ".data ++
            natToStr (m.map fun p => p.2.length).sum =
          "Total".data ++ (" validated ANDA matches: ".data ++
            natToStr (m.map fun p => p.2.length).sum) from by
            rw [show "Total validated ANDA matches: ".data =
              "Total".data ++ " validated ANDA matches: ".data from rfl,
              List.append_assoc]]
        exact parse_skip_cond_total _)]
      rw [List.foldl_cons, parse_step_skip (by decide),
        List.foldl_cons, parse_step_skip (by decide),
        List.foldl_cons, parse_step_skip (by decide)]
      rw [foldl_parse_data_lines m [] hvalid hkeys (by simp)]
      rfl
  refine ⟨hmain, fun hsorted => ?_⟩
  rw [hmain]
  have : m.map (fun p => (p.1, pdedup (sortBy lexLt p.2))) = m.map id := by
    apply List.map_congr_left
    intro p hp
    have hch := (hsorted p hp).chain'
    rw [sortBy_eq_self_of_chain lexLt p.2 hch,
      pdedup_eq_self ((hsorted p hp).imp fun hab => lexLt_ne hab)]
    rfl
  rw [this, List.map_id]

/-- Claim C6 (counterexample): the round-trip is not the identity on the
exported mapping.  Exporting the single brand `123` with generic `456`
and re-parsing yields `{"000123": ["000456"]}` — the parser's
`zfill(6)` re-pads every id — which differs from the exported mapping
`{"123": ["456"]}`. -/
theorem matches_export_parse_roundtrip_cex :
    parse_matches_file (export_nda_anda_matches []
        [("123".data, ["456".data])]) =
      [("000123".data, ["000456".data])] ∧
    parse_matches_file (export_nda_anda_matches []
        [("123".data, ["456".data])]) ≠
      [("123".data, ["456".data])] := by
  constructor
  · decide
  · decide

/-- Witness for the amended claim C6 at a concrete two-generic mapping
with 6-digit ids (one generic duplicated, so parsing deduplicates). -/
theorem matches_export_parse_roundtrip_witness :
    parse_matches_file (export_nda_anda_matches []
        [("019955".data, ["200653".data, "076470".data, "200653".data])]) =
      [("019955".data, ["076470".data, "200653".data])] := by
  have h := (matches_export_parse_roundtrip []
    [("019955".data, ["200653".data, "076470".data, "200653".data])]
    (by decide) (by decide)).1
  rw [h]
  decide
